import Mathlib

/-!
Shallow embedding of the `VideoProcessor` class of the tennis-insight-engine
repository (object-detection based tennis video analysis).

Conventions of the embedding:
* JavaScript floating-point numbers are modelled as exact rationals (`ℚ`);
  the numeric literals of the source (`0.5`, `0.15`, `0.12`, `2000`, `50`, …)
  are exact decimals.
* `Math.floor` on a rational is `Int.floor` (JS floors toward −∞, as `⌊·⌋`).
* The Euclidean-distance comparison `sqrt(dx²+dy²) > 50` of `calculateStats`
  is modelled by the equivalent exact comparison `dx²+dy² > 2500`
  (both sides of the original comparison are non-negative and squaring is
  strictly monotone there).
* The unguarded JS division `playerMovements / analyses.length` evaluates to
  the non-finite `NaN` when `analyses` is empty (`0/0`); non-finite results
  are modelled by `Option ℚ`, with `none` standing for the non-finite value.
* The object detector is an external capability; `processVideo` receives it
  as an oracle `o : ℕ → Option (List RawDetection)` giving, per frame number,
  either the detector's output or `none` when detection throws on that frame
  (the `try/catch` around `processFrame` in the sampling loop).
-/

namespace TennisInsight

/-- Bounding box `[xmin, ymin, xmax, ymax]` in frame pixel coordinates. -/
structure BBox where
  x1 : ℚ
  y1 : ℚ
  x2 : ℚ
  y2 : ℚ
  deriving DecidableEq

/-- One raw output of the object detector: `{ box, score, label }`. -/
structure RawDetection where
  box : BBox
  score : ℚ
  label : String
  deriving DecidableEq

/-- The `DetectionResult` record of the source: `{ bbox, score, label }`. -/
structure DetectionResult where
  bbox : BBox
  score : ℚ
  label : String
  deriving DecidableEq

/-- The `TennisAnalysis` record of the source: the classified detections of one frame. -/
structure TennisAnalysis where
  frame : ℕ
  timestamp : ℚ
  players : List DetectionResult
  ball : Option DetectionResult
  court : Option DetectionResult
  deriving DecidableEq

/-- The repackaging done inside `processFrame`'s loop:
`bbox = [box.xmin, box.ymin, box.xmax, box.ymax]` with score and label kept. -/
def toDetectionResult (d : RawDetection) : DetectionResult :=
  { bbox := d.box, score := d.score, label := d.label }

/-- Heuristic `isBallLike`: `area < 2000 && Math.abs(width - height) < Math.min(width, height) * 0.5`. -/
def isBallLike (r : DetectionResult) : Bool :=
  let width := r.bbox.x2 - r.bbox.x1
  let height := r.bbox.y2 - r.bbox.y1
  let area := width * height
  decide (area < 2000 ∧ |width - height| < min width height * (1/2))

/-- Heuristic `isCourtLike`: `area > 50000 && width > height * 1.5`. -/
def isCourtLike (r : DetectionResult) : Bool :=
  let width := r.bbox.x2 - r.bbox.x1
  let height := r.bbox.y2 - r.bbox.y1
  let area := width * height
  decide (area > 50000 ∧ width > height * (3/2))

/-- The inline candidate update `if (!cand || score > cand.score) cand = result`
used by `processFrame` for both the ball and the court candidate. -/
def updateBest (cur : Option DetectionResult) (r : DetectionResult) : Option DetectionResult :=
  match cur with
  | none => some r
  | some c => if r.score > c.score then some r else some c

/-- Accumulator of `processFrame`'s classification loop:
the `players` array and the `ball` and `court` candidates. -/
structure ClassifyState where
  players : List DetectionResult
  ball : Option DetectionResult
  court : Option DetectionResult
  deriving DecidableEq

/-- One iteration of `processFrame`'s `for (const detection of detections)` loop:
skip when `score < 0.5`; `person` goes to the players array; else the
`sports ball` label or the ball-shape heuristic feeds the ball candidate;
else the court-shape heuristic feeds the court candidate; else drop. -/
def classifyStep (st : ClassifyState) (d : RawDetection) : ClassifyState :=
  if d.score < 1/2 then st
  else
    let result := toDetectionResult d
    if d.label = "person" then
      { st with players := st.players ++ [result] }
    else if d.label = "sports ball" ∨ isBallLike result = true then
      { st with ball := updateBest st.ball result }
    else if isCourtLike result = true then
      { st with court := updateBest st.court result }
    else st

/-- Method `processFrame`: classify the detector's output for one frame; the returned
analysis keeps `players.slice(0, 2)` (at most 2 players). -/
def processFrame (detections : List RawDetection) (frameNumber : ℕ) (timestamp : ℚ) :
    TennisAnalysis :=
  let st := detections.foldl classifyStep { players := [], ball := none, court := none }
  { frame := frameNumber
    timestamp := timestamp
    players := st.players.take 2
    ball := st.ball
    court := st.court }

/-- Constant `frameInterval = 1 / fps` with `fps = 30`. -/
def frameInterval : ℚ := 1 / 30

/-- The sample times visited by `processVideo`'s `while (currentTime < duration)`
loop: `currentTime` starts at `t`, each iteration adds `frameInterval * 5`. -/
def sampleTimesFrom (D t : ℚ) : List ℚ :=
  if h : t < D then t :: sampleTimesFrom D (t + frameInterval * 5) else []
termination_by (⌈(D - t) * 6⌉).toNat
decreasing_by
  have h1 : (0:ℚ) < (D - t) * 6 := mul_pos (sub_pos.mpr h) (by norm_num)
  have h2 : 0 < ⌈(D - t) * 6⌉ := Int.ceil_pos.mpr h1
  have e : (D - (t + frameInterval * 5)) * 6 = (D - t) * 6 - 1 := by
    simp only [frameInterval]; ring
  have h3 : ⌈(D - (t + frameInterval * 5)) * 6⌉ = ⌈(D - t) * 6⌉ - 1 := by
    rw [e, Int.ceil_sub_one]
  omega

/-- The body of `processVideo`'s sampling loop, for duration `D`, detector
oracle `o`, current time `t` and frame counter `n`: on each sampled frame the
`try { results.push(processFrame …) } catch { console.error(…) }` either
appends the frame's analysis (detector returned `o n = some dets`) or
appends nothing (detection threw, `o n = none`), then advances
`currentTime += frameInterval * 5` and `frameNumber++`. -/
def processVideoAux (D : ℚ) (o : ℕ → Option (List RawDetection)) (t : ℚ) (n : ℕ) :
    List TennisAnalysis :=
  if h : t < D then
    (match o n with
     | some dets => [processFrame dets n t]
     | none => []) ++ processVideoAux D o (t + frameInterval * 5) (n + 1)
  else []
termination_by (⌈(D - t) * 6⌉).toNat
decreasing_by
  have h1 : (0:ℚ) < (D - t) * 6 := mul_pos (sub_pos.mpr h) (by norm_num)
  have h2 : 0 < ⌈(D - t) * 6⌉ := Int.ceil_pos.mpr h1
  have e : (D - (t + frameInterval * 5)) * 6 = (D - t) * 6 - 1 := by
    simp only [frameInterval]; ring
  have h3 : ⌈(D - (t + frameInterval * 5)) * 6⌉ = ⌈(D - t) * 6⌉ - 1 := by
    rw [e, Int.ceil_sub_one]
  omega

/-- Method `processVideo`: run the sampling loop from `currentTime = 0`,
`frameNumber = 0` over a video of duration `D`. -/
def processVideo (D : ℚ) (o : ℕ → Option (List RawDetection)) : List TennisAnalysis :=
  processVideoAux D o 0 0

/-! ## Heatmap aggregation -/

/-- Increment `row[x] += 1` on a row of counters (no-op out of range, but
`generateHeatmap` only calls it in range). -/
def setInc : List ℕ → ℕ → List ℕ
  | [], _ => []
  | a :: r, 0 => (a + 1) :: r
  | a :: r, n + 1 => a :: setInc r n

/-- Increment `grid[y][x] += 1`. -/
def gridInc : List (List ℕ) → ℕ → ℕ → List (List ℕ)
  | [], _, _ => []
  | r :: g, 0, x => setInc r x :: g
  | r :: g, y + 1, x => r :: gridInc g y x

/-- The `type` argument of `generateHeatmap`: `'players' | 'ball'`. -/
inductive HeatmapType where
  | players
  | ball
  deriving DecidableEq

/-- Horizontal floored center `Math.floor((x1 + x2) / 2)` of a bounding box. -/
def centerX (b : BBox) : ℤ := ⌊(b.x1 + b.x2) / 2⌋

/-- Vertical floored center `Math.floor((y1 + y2) / 2)` of a bounding box. -/
def centerY (b : BBox) : ℤ := ⌊(b.y1 + b.y2) / 2⌋

/-- The bounds test of `generateHeatmap`:
`centerX >= 0 && centerX < width && centerY >= 0 && centerY < height`. -/
def inBoundsCenter (width height : ℕ) (b : BBox) : Prop :=
  0 ≤ centerX b ∧ centerX b < (width : ℤ) ∧ 0 ≤ centerY b ∧ centerY b < (height : ℤ)

instance (width height : ℕ) (b : BBox) : Decidable (inBoundsCenter width height b) := by
  unfold inBoundsCenter; infer_instance

/-- The inlined per-detection body of `generateHeatmap`: compute the floored
bounding-box center and, when in bounds, `heatmap[centerY][centerX] += 1`. -/
def addCenter (width height : ℕ) (g : List (List ℕ)) (b : BBox) : List (List ℕ) :=
  if inBoundsCenter width height b then gridInc g (centerY b).toNat (centerX b).toNat else g

/-- The per-analysis body of `generateHeatmap`'s loop: all players when
`type === 'players'`, the single ball detection (when present) when
`type === 'ball'`. -/
def heatmapStep (width height : ℕ) (type : HeatmapType) (g : List (List ℕ))
    (a : TennisAnalysis) : List (List ℕ) :=
  match type with
  | .players => a.players.foldl (fun g p => addCenter width height g p.bbox) g
  | .ball =>
    match a.ball with
    | some b => addCenter width height g b.bbox
    | none => g

/-- Method `generateHeatmap`: start from
`Array(height).fill(null).map(() => Array(width).fill(0))` and accumulate all
analyses. -/
def generateHeatmap (analyses : List TennisAnalysis) (width height : ℕ)
    (type : HeatmapType) : List (List ℕ) :=
  analyses.foldl (heatmapStep width height type)
    (List.replicate height (List.replicate width 0))

/-- Read `grid[y][x]` (0 outside the grid). -/
def cell (g : List (List ℕ)) (y x : ℕ) : ℕ := (g.getD y []).getD x 0

/-- Sum of all cells of a grid. -/
def sumGrid (g : List (List ℕ)) : ℕ := (g.map List.sum).sum

/-! ## Statistics -/

/-- Ball center `[(x1 + x2) / 2, (y1 + y2) / 2]` as used by `calculateStats`. -/
def ballCenter (b : DetectionResult) : ℚ × ℚ :=
  ((b.bbox.x1 + b.bbox.x2) / 2, (b.bbox.y1 + b.bbox.y2) / 2)

/-- Squared Euclidean distance between two positions. -/
def dist2 (p q : ℚ × ℚ) : ℚ := (q.1 - p.1) ^ 2 + (q.2 - p.2) ^ 2

/-- Accumulator of `calculateStats`' loop: `totalShots`, `ballDetections`,
`playerMovements` and the mutable `prevBallPosition` (initially `null`). -/
structure StatsLoopState where
  totalShots : ℕ
  ballDetections : ℕ
  playerMovements : ℕ
  prevBallPosition : Option (ℚ × ℚ)
  deriving DecidableEq

/-- One iteration of `calculateStats`' `for (const analysis of analyses)` loop.
The source compares `sqrt(dx²+dy²) > 50`; this is the equivalent exact test
`dx²+dy² > 2500`. -/
def statsStep (st : StatsLoopState) (a : TennisAnalysis) : StatsLoopState :=
  let st' :=
    match a.ball with
    | some b =>
      let currentPos := ballCenter b
      let shots :=
        match st.prevBallPosition with
        | some prev => if dist2 prev currentPos > 2500 then st.totalShots + 1 else st.totalShots
        | none => st.totalShots
      { st with
          totalShots := shots
          ballDetections := st.ballDetections + 1
          prevBallPosition := some currentPos }
    | none => st
  { st' with playerMovements := st'.playerMovements + a.players.length }

/-- The record returned by `calculateStats`. `averagePlayersPerFrame` is an
`Option ℚ`: `none` models the non-finite `NaN` that the unguarded JS division
`playerMovements / analyses.length` produces on the empty sequence (`0/0`). -/
structure VideoStats where
  shots : ℕ
  winners : ℕ
  errors : ℕ
  ballDetections : ℕ
  playerMovements : ℕ
  averagePlayersPerFrame : Option ℚ
  deriving DecidableEq

/-- Method `calculateStats`: fold the loop, then derive
`winners = Math.floor(totalShots * 0.15)`, `errors = Math.floor(totalShots * 0.12)`
and `averagePlayersPerFrame = playerMovements / analyses.length`. -/
def calculateStats (analyses : List TennisAnalysis) : VideoStats :=
  let st := analyses.foldl statsStep
    { totalShots := 0, ballDetections := 0, playerMovements := 0, prevBallPosition := none }
  { shots := st.totalShots
    winners := Nat.floor ((st.totalShots : ℚ) * (15 / 100))
    errors := Nat.floor ((st.totalShots : ℚ) * (12 / 100))
    ballDetections := st.ballDetections
    playerMovements := st.playerMovements
    averagePlayersPerFrame :=
      if analyses.length = 0 then none
      else some ((st.playerMovements : ℚ) / (analyses.length : ℚ)) }

/-! ## Counting helpers used to state the heatmap claims -/

/-- Number of detections of one analysis that contribute an in-bounds center
to a `width × height` heatmap of the given kind. -/
def contribCount (width height : ℕ) (type : HeatmapType) (a : TennisAnalysis) : ℕ :=
  match type with
  | .players => a.players.countP (fun p => decide (inBoundsCenter width height p.bbox))
  | .ball =>
    match a.ball with
    | some b => if inBoundsCenter width height b.bbox then 1 else 0
    | none => 0

/-- Number of detections of one analysis whose floored center is exactly the
cell `(y, x)` (row `y`, column `x`). -/
def hitCount (type : HeatmapType) (y x : ℕ) (a : TennisAnalysis) : ℕ :=
  match type with
  | .players =>
    a.players.countP (fun p => decide (centerY p.bbox = (y : ℤ) ∧ centerX p.bbox = (x : ℤ)))
  | .ball =>
    match a.ball with
    | some b => if centerY b.bbox = (y : ℤ) ∧ centerX b.bbox = (x : ℤ) then 1 else 0
    | none => 0

/-- A frame whose only detection is a ball of center `(cx, cy)`. -/
def mkBallFrame (cx cy : ℚ) (n : ℕ) : TennisAnalysis :=
  { frame := n
    timestamp := (n : ℚ)
    players := []
    ball := some { bbox := { x1 := cx - 1, y1 := cy - 1, x2 := cx + 1, y2 := cy + 1 },
                   score := 9/10, label := "sports ball" }
    court := none }

/-! ## Stats lemmas -/

theorem statsStep_shots_le (st : StatsLoopState) (a : TennisAnalysis) :
    st.totalShots ≤ (statsStep st a).totalShots := by
  unfold statsStep
  cases a.ball with
  | none => simp
  | some b =>
    cases st.prevBallPosition with
    | none => simp
    | some prev => dsimp only; split <;> omega

theorem foldl_statsStep_shots_le (l : List TennisAnalysis) :
    ∀ st : StatsLoopState, st.totalShots ≤ (l.foldl statsStep st).totalShots := by
  induction l with
  | nil => intro st; simp
  | cons a l ih => intro st; exact le_trans (statsStep_shots_le st a) (ih _)

/-- Claim C2 counterexample: on the empty analysis sequence the
average-players-per-frame returned by `calculateStats` is the unguarded
division `0 / 0`, a non-numeric NaN (modelled `none`), not the guarded `0`
the claim states. -/
theorem calculateStats_empty_average_not_zero :
    (calculateStats []).averagePlayersPerFrame ≠ some 0 := by
  simp [calculateStats]

/-- Claim C2 (amended): `calculateStats []` returns `shots = 0`,
`winners = 0`, `errors = 0`, and its average-players-per-frame is the
non-numeric result of the unguarded division by `analyses.length = 0`
(NaN, modelled `none`) rather than `0`. -/
theorem calculateStats_empty :
    (calculateStats []).shots = 0 ∧ (calculateStats []).winners = 0 ∧
      (calculateStats []).errors = 0 ∧
      (calculateStats []).averagePlayersPerFrame = none := by
  refine ⟨rfl, ?_, ?_, rfl⟩ <;> norm_num [calculateStats]

/-- Claim C4: `calculateStats` counts shots by folding in order with a
previous-ball-position accumulator that starts unset: a frame without a ball
changes neither the shot count nor the previous position; a frame with ball
`b` updates the previous position to `b`'s center and increments the shot
count by exactly 1 precisely when a previous position exists and the
Euclidean distance to it exceeds 50 (stated as squared distance > 2500,
equivalent since both sides are non-negative). Consecutive ball centers
(0,0) and (100,0) add exactly one shot; (0,0) and (10,0) add none. -/
theorem statsStep_shot_rule :
    (∀ (st : StatsLoopState) (a : TennisAnalysis),
      ((statsStep st a).totalShots, (statsStep st a).prevBallPosition) =
        (match a.ball with
         | none => (st.totalShots, st.prevBallPosition)
         | some b =>
           ((match st.prevBallPosition with
             | none => st.totalShots
             | some prev =>
               if dist2 prev (ballCenter b) > 2500 then st.totalShots + 1
               else st.totalShots),
            some (ballCenter b))))
    ∧ (calculateStats [mkBallFrame 0 0 0, mkBallFrame 100 0 1]).shots = 1
    ∧ (calculateStats [mkBallFrame 0 0 0, mkBallFrame 10 0 1]).shots = 0 := by
  refine ⟨?_, ?_, ?_⟩
  case refine_2 => norm_num [calculateStats, statsStep, mkBallFrame, ballCenter, dist2]
  case refine_3 => norm_num [calculateStats, statsStep, mkBallFrame, ballCenter, dist2]
  intro st a
  cases hb : a.ball with
  | none => simp [statsStep, hb]
  | some b => cases hp : st.prevBallPosition <;> simp [statsStep, hb, hp]

/-- Claim C7: the winner and error counts of `calculateStats` are exactly
`⌊shots × 0.15⌋` and `⌊shots × 0.12⌋` of the shot count of the same pass. -/
theorem calculateStats_fixed_ratios (analyses : List TennisAnalysis) :
    (calculateStats analyses).winners =
      Nat.floor (((calculateStats analyses).shots : ℚ) * (15 / 100))
    ∧ (calculateStats analyses).errors =
      Nat.floor (((calculateStats analyses).shots : ℚ) * (12 / 100)) :=
  ⟨rfl, rfl⟩

/-- Claim C8: the shot count of `calculateStats` is monotone non-decreasing
under appending frames at the end of the analysis sequence. -/
theorem calculateStats_shots_mono (l m : List TennisAnalysis) :
    (calculateStats l).shots ≤ (calculateStats (l ++ m)).shots := by
  simp only [calculateStats, List.foldl_append]
  exact foldl_statsStep_shots_le m _

/-! ## Classifier lemmas -/

theorem classifyStep_players_eq (st : ClassifyState) (d : RawDetection) :
    (classifyStep st d).players =
      if ¬ d.score < 1/2 ∧ d.label = "person" then st.players ++ [toDetectionResult d]
      else st.players := by
  unfold classifyStep
  dsimp only
  split_ifs <;> first | rfl | tauto

theorem foldl_classifyStep_players (dets : List RawDetection) :
    ∀ st : ClassifyState,
      (dets.foldl classifyStep st).players =
        st.players ++
          (dets.filter (fun d => decide (¬ d.score < 1/2 ∧ d.label = "person"))).map
            toDetectionResult := by
  induction dets with
  | nil => intro st; simp
  | cons d dets ih =>
    intro st
    rw [List.foldl_cons, ih, classifyStep_players_eq, List.filter_cons]
    by_cases h : ¬ d.score < 1/2 ∧ d.label = "person"
    · rw [if_pos h, if_pos (by simpa using h)]
      simp
    · rw [if_neg h, if_neg (by simpa using h)]

/-- Claim C5: the players of `processFrame` are exactly the first (up to) two
detections labelled `person` that pass the `score < 0.5` confidence filter,
in detector output order (no re-sorting); hence always at most two players.
Three `person` detections with scores 0.9, 0.6, 0.95 yield the players with
scores 0.9 and 0.6. -/
theorem processFrame_players_spec (dets : List RawDetection) (n : ℕ) (ts : ℚ) :
    (processFrame dets n ts).players =
      ((dets.filter (fun d => decide (¬ d.score < 1/2 ∧ d.label = "person"))).map
        toDetectionResult).take 2
    ∧ (processFrame dets n ts).players.length ≤ 2
    ∧ (processFrame
        [⟨⟨0, 0, 10, 10⟩, 9/10, "person"⟩, ⟨⟨20, 0, 30, 10⟩, 6/10, "person"⟩,
          ⟨⟨40, 0, 50, 10⟩, 95/100, "person"⟩] 0 0).players
        = [⟨⟨0, 0, 10, 10⟩, 9/10, "person"⟩, ⟨⟨20, 0, 30, 10⟩, 6/10, "person"⟩] := by
  have h1 : (processFrame dets n ts).players =
      ((dets.filter (fun d => decide (¬ d.score < 1/2 ∧ d.label = "person"))).map
        toDetectionResult).take 2 := by
    show ((dets.foldl classifyStep
        { players := [], ball := none, court := none }).players).take 2 = _
    rw [foldl_classifyStep_players]
    simp
  refine ⟨h1, ?_, ?_⟩
  · rw [h1]
    simp only [List.length_take]
    omega
  · norm_num [processFrame, classifyStep, toDetectionResult]

/-- Claim C6 counterexample: two distinct ball detections of equal score,
classified in both orders — first-seen wins, so reordering equal-score
detections changes which detection is selected as the ball candidate;
the selection is not invariant under such reordering. -/
theorem processFrame_reorder_ties_counterexample :
    (processFrame [⟨⟨0, 0, 10, 10⟩, 9/10, "sports ball"⟩,
        ⟨⟨100, 100, 110, 110⟩, 9/10, "sports ball"⟩] 0 0).ball
    ≠ (processFrame [⟨⟨100, 100, 110, 110⟩, 9/10, "sports ball"⟩,
        ⟨⟨0, 0, 10, 10⟩, 9/10, "sports ball"⟩] 0 0).ball := by
  norm_num [processFrame, classifyStep, toDetectionResult, updateBest,
    show (("sports ball" : String) = "person") = False from eq_false (by decide)]

/-- Claim C6 (amended): in the single-pass selection of the ball and court
candidates, a later detection of the same class replaces the current
candidate if and only if its score is strictly greater; on equal scores the
earlier-seen candidate is kept. The selected candidate's score is therefore
monotone, but the selected candidate itself is order-dependent among
distinct detections of equal score (first-seen wins), so the selection is
not invariant under reordering equal-score detections. -/
theorem classify_candidate_replacement :
    (∀ r : DetectionResult, updateBest none r = some r)
    ∧ (∀ c r : DetectionResult,
        updateBest (some c) r = if c.score < r.score then some r else some c)
    ∧ (∀ (st : ClassifyState) (d : RawDetection),
        ¬ d.score < 1/2 → ¬ d.label = "person" →
        (d.label = "sports ball" ∨ isBallLike (toDetectionResult d) = true) →
        (classifyStep st d).ball = updateBest st.ball (toDetectionResult d))
    ∧ (∀ (st : ClassifyState) (d : RawDetection),
        ¬ d.score < 1/2 → ¬ d.label = "person" →
        ¬ (d.label = "sports ball" ∨ isBallLike (toDetectionResult d) = true) →
        isCourtLike (toDetectionResult d) = true →
        (classifyStep st d).court = updateBest st.court (toDetectionResult d)) := by
  refine ⟨fun r => rfl, fun c r => rfl, ?_, ?_⟩
  · intro st d h1 h2 h3
    unfold classifyStep
    dsimp only
    split_ifs <;> first | rfl | tauto
  · intro st d h1 h2 h3 h4
    unfold classifyStep
    dsimp only
    split_ifs <;> first | rfl | tauto

/-- Witness for the candidate-replacement rule: a tie keeps the earlier ball
candidate, and an eligible ball detection feeds `updateBest`. -/
theorem classify_candidate_replacement_witness :
    updateBest (some ⟨⟨0, 0, 10, 10⟩, 9/10, "sports ball"⟩)
        ⟨⟨100, 100, 110, 110⟩, 9/10, "sports ball"⟩
      = some ⟨⟨0, 0, 10, 10⟩, 9/10, "sports ball"⟩
    ∧ (classifyStep ⟨[], none, none⟩ ⟨⟨0, 0, 10, 10⟩, 9/10, "sports ball"⟩).ball
      = updateBest none (toDetectionResult ⟨⟨0, 0, 10, 10⟩, 9/10, "sports ball"⟩) := by
  constructor
  · rw [classify_candidate_replacement.2.1]
    norm_num
  · exact classify_candidate_replacement.2.2.1 ⟨[], none, none⟩ _
      (by norm_num) (by simp) (Or.inl rfl)

/-! ## Heatmap lemmas -/

/-- A grid has `h` rows of `w` cells each. -/
def Rect (g : List (List ℕ)) (w h : ℕ) : Prop :=
  g.map List.length = List.replicate h w

theorem rect_length {g : List (List ℕ)} {w h : ℕ} (hg : Rect g w h) : g.length = h := by
  have := congrArg List.length hg
  simpa using this

theorem rect_row_length : ∀ (g : List (List ℕ)) (w h y : ℕ), Rect g w h → y < h →
    (g.getD y []).length = w := by
  intro g
  induction g with
  | nil =>
    intro w h y hg hy
    unfold Rect at hg
    simp only [List.map_nil] at hg
    have := congrArg List.length hg
    simp at this
    omega
  | cons r g ih =>
    intro w h y hg hy
    unfold Rect at hg
    cases h with
    | zero => omega
    | succ m =>
      rw [List.replicate_succ] at hg
      simp only [List.map_cons, List.cons.injEq] at hg
      obtain ⟨h1, h2⟩ := hg
      cases y with
      | zero => simpa using h1
      | succ k =>
        simp only [List.getD_cons_succ]
        exact ih w m k h2 (by omega)

theorem setInc_length (r : List ℕ) : ∀ x, (setInc r x).length = r.length := by
  induction r with
  | nil => intro x; rfl
  | cons a r ih =>
    intro x
    cases x with
    | zero => rfl
    | succ n => simp [setInc, ih n]

theorem setInc_sum (r : List ℕ) : ∀ x, x < r.length → (setInc r x).sum = r.sum + 1 := by
  induction r with
  | nil => intro x hx; simp at hx
  | cons a r ih =>
    intro x hx
    cases x with
    | zero => simp [setInc]; omega
    | succ n =>
      simp only [setInc, List.sum_cons]
      rw [ih n (by simpa using hx)]
      omega

theorem setInc_getD (r : List ℕ) : ∀ x j, (setInc r x).getD j 0 =
    if j = x ∧ x < r.length then r.getD j 0 + 1 else r.getD j 0 := by
  induction r with
  | nil =>
    intro x j
    simp [setInc]
  | cons a r ih =>
    intro x j
    cases x with
    | zero =>
      cases j with
      | zero => simp [setInc]
      | succ m => simp [setInc]
    | succ n =>
      cases j with
      | zero => simp [setInc]
      | succ m =>
        simp only [setInc, List.getD_cons_succ, List.length_cons]
        rw [ih n m]
        by_cases h : m = n ∧ n < r.length
        · rw [if_pos h, if_pos (by omega)]
        · rw [if_neg h, if_neg (by omega)]

theorem gridInc_map_length (g : List (List ℕ)) : ∀ y x,
    (gridInc g y x).map List.length = g.map List.length := by
  induction g with
  | nil => intro y x; rfl
  | cons r g ih =>
    intro y x
    cases y with
    | zero => simp [gridInc, setInc_length]
    | succ n => simp [gridInc, ih n x]

theorem gridInc_sumGrid (g : List (List ℕ)) : ∀ y x, y < g.length →
    x < (g.getD y []).length → sumGrid (gridInc g y x) = sumGrid g + 1 := by
  induction g with
  | nil => intro y x hy _; simp at hy
  | cons r g ih =>
    intro y x hy hx
    cases y with
    | zero =>
      simp only [gridInc, sumGrid, List.map_cons, List.sum_cons]
      rw [setInc_sum r x (by simpa using hx)]
      omega
    | succ n =>
      simp only [gridInc, sumGrid, List.map_cons, List.sum_cons]
      have := ih n x (by simpa using hy) (by simpa using hx)
      simp only [sumGrid] at this
      omega

theorem gridInc_cell (g : List (List ℕ)) : ∀ y x y' x', y < g.length →
    x < (g.getD y []).length →
    cell (gridInc g y x) y' x' =
      if y' = y ∧ x' = x then cell g y' x' + 1 else cell g y' x' := by
  induction g with
  | nil => intro y x y' x' hy _; simp at hy
  | cons r g ih =>
    intro y x y' x' hy hx
    cases y with
    | zero =>
      cases y' with
      | zero =>
        simp only [gridInc, cell, List.getD_cons_zero]
        rw [setInc_getD r x x']
        have hx' : x < r.length := by simpa using hx
        by_cases h : x' = x
        · rw [if_pos ⟨h, hx'⟩, if_pos (by simp [h])]
        · rw [if_neg (fun hc => h hc.1), if_neg (by simp [h])]
      | succ m => simp [gridInc, cell]
    | succ n =>
      cases y' with
      | zero => simp [gridInc, cell]
      | succ m =>
        simp only [gridInc, cell, List.getD_cons_succ]
        have hy' : n < g.length := by simpa using hy
        have hx' : x < (g.getD n []).length := by simpa using hx
        have hc := ih n x m x' hy' hx'
        simp only [cell] at hc
        rw [hc]
        by_cases h : m = n ∧ x' = x
        · rw [if_pos h, if_pos (by omega)]
        · rw [if_neg h, if_neg (by omega)]

theorem addCenter_rect {g : List (List ℕ)} {w h : ℕ} (b : BBox) (hg : Rect g w h) :
    Rect (addCenter w h g b) w h := by
  unfold addCenter
  split
  · unfold Rect at *
    rw [gridInc_map_length]
    exact hg
  · exact hg

theorem addCenter_sum {g : List (List ℕ)} {w h : ℕ} (b : BBox) (hg : Rect g w h) :
    sumGrid (addCenter w h g b) =
      sumGrid g + (if inBoundsCenter w h b then 1 else 0) := by
  unfold addCenter
  split_ifs with hb
  · obtain ⟨h1, h2, h3, h4⟩ := hb
    rw [gridInc_sumGrid g (centerY b).toNat (centerX b).toNat
      (by rw [rect_length hg]; omega)
      (by rw [rect_row_length g w h (centerY b).toNat hg (by omega)]; omega)]
  · simp

theorem addCenter_cell {g : List (List ℕ)} {w h : ℕ} (b : BBox) (y x : ℕ) (hg : Rect g w h)
    (hy : y < h) (hx : x < w) :
    cell (addCenter w h g b) y x =
      cell g y x + (if centerY b = (y : ℤ) ∧ centerX b = (x : ℤ) then 1 else 0) := by
  unfold addCenter
  split_ifs with hb hc hc
  · obtain ⟨h1, h2, h3, h4⟩ := hb
    rw [gridInc_cell g (centerY b).toNat (centerX b).toNat y x
      (by rw [rect_length hg]; omega)
      (by rw [rect_row_length g w h (centerY b).toNat hg (by omega)]; omega)]
    rw [if_pos (by omega)]
  · obtain ⟨h1, h2, h3, h4⟩ := hb
    rw [gridInc_cell g (centerY b).toNat (centerX b).toNat y x
      (by rw [rect_length hg]; omega)
      (by rw [rect_row_length g w h (centerY b).toNat hg (by omega)]; omega)]
    rw [if_neg (by omega)]
    simp
  · exfalso
    apply hb
    obtain ⟨hcy, hcx⟩ := hc
    exact ⟨by omega, by omega, by omega, by omega⟩
  · simp

theorem foldl_addCenter_rect (ps : List DetectionResult) {w h : ℕ} :
    ∀ g, Rect g w h → Rect (ps.foldl (fun g p => addCenter w h g p.bbox) g) w h := by
  induction ps with
  | nil => intro g hg; exact hg
  | cons p ps ih => intro g hg; exact ih _ (addCenter_rect p.bbox hg)

theorem foldl_addCenter_sum (ps : List DetectionResult) {w h : ℕ} :
    ∀ g, Rect g w h →
      sumGrid (ps.foldl (fun g p => addCenter w h g p.bbox) g) =
        sumGrid g + ps.countP (fun p => decide (inBoundsCenter w h p.bbox)) := by
  induction ps with
  | nil => intro g _; simp
  | cons p ps ih =>
    intro g hg
    rw [List.foldl_cons, ih _ (addCenter_rect p.bbox hg), addCenter_sum p.bbox hg,
      List.countP_cons]
    by_cases hp : inBoundsCenter w h p.bbox
    · simp [hp]
      omega
    · simp [hp]

theorem foldl_addCenter_cell (ps : List DetectionResult) {w h : ℕ} (y x : ℕ)
    (hy : y < h) (hx : x < w) :
    ∀ g, Rect g w h →
      cell (ps.foldl (fun g p => addCenter w h g p.bbox) g) y x =
        cell g y x +
          ps.countP (fun p => decide (centerY p.bbox = (y : ℤ) ∧ centerX p.bbox = (x : ℤ))) := by
  induction ps with
  | nil => intro g _; simp
  | cons p ps ih =>
    intro g hg
    rw [List.foldl_cons, ih _ (addCenter_rect p.bbox hg), addCenter_cell p.bbox y x hg hy hx,
      List.countP_cons]
    by_cases hp : centerY p.bbox = (y : ℤ) ∧ centerX p.bbox = (x : ℤ)
    · simp [hp]
      omega
    · simp [hp]

theorem heatmapStep_rect {w h : ℕ} {ty : HeatmapType} {g : List (List ℕ)}
    (a : TennisAnalysis) (hg : Rect g w h) : Rect (heatmapStep w h ty g a) w h := by
  cases ty with
  | players => exact foldl_addCenter_rect a.players g hg
  | ball =>
    cases hb : a.ball with
    | none => simpa [heatmapStep, hb] using hg
    | some b =>
      simp only [heatmapStep, hb]
      exact addCenter_rect b.bbox hg

theorem heatmapStep_sum {w h : ℕ} {ty : HeatmapType} {g : List (List ℕ)}
    (a : TennisAnalysis) (hg : Rect g w h) :
    sumGrid (heatmapStep w h ty g a) = sumGrid g + contribCount w h ty a := by
  cases ty with
  | players => exact foldl_addCenter_sum a.players g hg
  | ball =>
    cases hb : a.ball with
    | none => simp [heatmapStep, contribCount, hb]
    | some b =>
      simp only [heatmapStep, contribCount, hb]
      exact addCenter_sum b.bbox hg

theorem heatmapStep_cell {w h : ℕ} {ty : HeatmapType} {g : List (List ℕ)}
    (a : TennisAnalysis) (y x : ℕ) (hg : Rect g w h) (hy : y < h) (hx : x < w) :
    cell (heatmapStep w h ty g a) y x = cell g y x + hitCount ty y x a := by
  cases ty with
  | players => exact foldl_addCenter_cell a.players y x hy hx g hg
  | ball =>
    cases hb : a.ball with
    | none => simp [heatmapStep, hitCount, hb]
    | some b =>
      simp only [heatmapStep, hitCount, hb]
      exact addCenter_cell b.bbox y x hg hy hx

theorem foldl_heatmapStep_rect (l : List TennisAnalysis) {w h : ℕ} {ty : HeatmapType} :
    ∀ g, Rect g w h → Rect (l.foldl (heatmapStep w h ty) g) w h := by
  induction l with
  | nil => intro g hg; exact hg
  | cons a l ih => intro g hg; exact ih _ (heatmapStep_rect a hg)

theorem foldl_heatmapStep_sum (l : List TennisAnalysis) {w h : ℕ} {ty : HeatmapType} :
    ∀ g, Rect g w h →
      sumGrid (l.foldl (heatmapStep w h ty) g) =
        sumGrid g + (l.map (contribCount w h ty)).sum := by
  induction l with
  | nil => intro g _; simp
  | cons a l ih =>
    intro g hg
    rw [List.foldl_cons, ih _ (heatmapStep_rect a hg), heatmapStep_sum a hg,
      List.map_cons, List.sum_cons]
    omega

theorem foldl_heatmapStep_cell (l : List TennisAnalysis) {w h : ℕ} {ty : HeatmapType}
    (y x : ℕ) (hy : y < h) (hx : x < w) :
    ∀ g, Rect g w h →
      cell (l.foldl (heatmapStep w h ty) g) y x =
        cell g y x + (l.map (hitCount ty y x)).sum := by
  induction l with
  | nil => intro g _; simp
  | cons a l ih =>
    intro g hg
    rw [List.foldl_cons, ih _ (heatmapStep_rect a hg), heatmapStep_cell a y x hg hy hx,
      List.map_cons, List.sum_cons]
    omega

theorem replicate_rect (w h : ℕ) : Rect (List.replicate h (List.replicate w 0)) w h := by
  unfold Rect
  rw [List.map_replicate]
  simp

theorem sumGrid_replicate (w h : ℕ) :
    sumGrid (List.replicate h (List.replicate w 0)) = 0 := by
  unfold sumGrid
  rw [List.map_replicate]
  simp

theorem getD_replicate {α : Type} (a d : α) : ∀ n i : ℕ,
    (List.replicate n a).getD i d = if i < n then a else d := by
  intro n
  induction n with
  | zero => intro i; simp
  | succ m ih =>
    intro i
    cases i with
    | zero => simp [List.replicate_succ]
    | succ k =>
      simp only [List.replicate_succ, List.getD_cons_succ]
      rw [ih k]
      by_cases hk : k < m
      · rw [if_pos hk, if_pos (by omega)]
      · rw [if_neg hk, if_neg (by omega)]

theorem cell_replicate (w h y x : ℕ) :
    cell (List.replicate h (List.replicate w 0)) y x = 0 := by
  unfold cell
  rw [getD_replicate]
  split_ifs
  · rw [getD_replicate]
    split_ifs <;> rfl
  · rfl

/-- Claim C3: for every analysis sequence, width, height and kind, the sum of
all cells of the grid returned by `generateHeatmap` equals the number of
contributing detections of that kind (all players per frame for kind
`players`, the single ball per frame for kind `ball`) whose floored
bounding-box center lies within `[0,width) × [0,height)`; out-of-bounds
centers contribute to no cell. For the empty sequence the grid is the
all-zero `height × width` grid. -/
theorem generateHeatmap_sum (analyses : List TennisAnalysis) (width height : ℕ)
    (ty : HeatmapType) :
    sumGrid (generateHeatmap analyses width height ty) =
      (analyses.map (contribCount width height ty)).sum
    ∧ generateHeatmap [] width height ty =
      List.replicate height (List.replicate width 0) := by
  constructor
  · unfold generateHeatmap
    rw [foldl_heatmapStep_sum analyses _ (replicate_rect width height),
      sumGrid_replicate]
    omega
  · rfl

/-- Claim C10: `generateHeatmap` always returns a grid of exactly `height`
rows of exactly `width` cells (each a natural number, hence non-negative),
and the grid is indexed `grid[y][x]`: for `y < height`, `x < width` the cell
at row `y`, column `x` holds the number of contributing detections whose
floored vertical center is `y` and floored horizontal center is `x`. -/
theorem generateHeatmap_shape_cells (analyses : List TennisAnalysis)
    (width height : ℕ) (ty : HeatmapType) :
    (generateHeatmap analyses width height ty).length = height
    ∧ (∀ row ∈ generateHeatmap analyses width height ty, row.length = width)
    ∧ (∀ y x : ℕ, y < height → x < width →
        cell (generateHeatmap analyses width height ty) y x =
          (analyses.map (hitCount ty y x)).sum) := by
  have hrect : Rect (generateHeatmap analyses width height ty) width height :=
    foldl_heatmapStep_rect analyses _ (replicate_rect width height)
  refine ⟨rect_length hrect, ?_, ?_⟩
  · intro row hrow
    have h1 : row.length ∈ List.replicate height width := by
      unfold Rect at hrect
      rw [← hrect]
      exact List.mem_map.mpr ⟨row, hrow, rfl⟩
    exact List.eq_of_mem_replicate h1
  · intro y x hy hx
    unfold generateHeatmap
    rw [foldl_heatmapStep_cell analyses y x hy hx _ (replicate_rect width height),
      cell_replicate]
    omega

/-- Witness for the heatmap shape and cell characterization at a concrete
input. -/
theorem generateHeatmap_shape_cells_witness :
    (generateHeatmap [] 2 3 HeatmapType.players).length = 3
    ∧ (List.replicate 2 0).length = 2
    ∧ cell (generateHeatmap [] 2 3 HeatmapType.players) 1 0 = 0 := by
  refine ⟨(generateHeatmap_shape_cells [] 2 3 HeatmapType.players).1, ?_, ?_⟩
  · exact (generateHeatmap_shape_cells [] 2 3 HeatmapType.players).2.1
      (List.replicate 2 0) (List.mem_replicate.mpr ⟨by omega, rfl⟩)
  · have hc := (generateHeatmap_shape_cells [] 2 3 HeatmapType.players).2.2 1 0
      (by omega) (by omega)
    simpa using hc

/-! ## Sampling-loop lemmas -/

theorem sampleTimesFrom_closed : ∀ (n : ℕ) (D t : ℚ), (⌈(D - t) * 6⌉).toNat = n →
    sampleTimesFrom D t =
      (List.range n).map (fun i : ℕ => t + (i : ℚ) * (frameInterval * 5)) := by
  intro n
  induction n with
  | zero =>
    intro D t hn
    have hDt : ¬ t < D := by
      intro h
      have h1 : (0:ℚ) < (D - t) * 6 := mul_pos (sub_pos.mpr h) (by norm_num)
      have h2 : 0 < ⌈(D - t) * 6⌉ := Int.ceil_pos.mpr h1
      omega
    rw [sampleTimesFrom, dif_neg hDt]
    simp
  | succ m ih =>
    intro D t hn
    have hDt : t < D := by
      by_contra hcon
      have h1 : (D - t) * 6 ≤ 0 := by nlinarith [not_lt.mp hcon]
      have h2 : ⌈(D - t) * 6⌉ ≤ 0 := by
        rw [Int.ceil_le]
        exact_mod_cast h1
      omega
    have hn' : (⌈(D - (t + frameInterval * 5)) * 6⌉).toNat = m := by
      have e : (D - (t + frameInterval * 5)) * 6 = (D - t) * 6 - 1 := by
        simp only [frameInterval]; ring
      rw [e, Int.ceil_sub_one]
      omega
    rw [sampleTimesFrom, dif_pos hDt, ih D (t + frameInterval * 5) hn',
      List.range_succ_eq_map]
    simp only [List.map_cons, List.map_map]
    congr 1
    · norm_num
    · apply List.map_congr_left
      intro i _
      simp only [Function.comp_apply]
      push_cast
      ring

theorem processVideoAux_timestamps : ∀ (n : ℕ) (D t : ℚ) (k : ℕ)
    (o : ℕ → Option (List RawDetection)), (∀ j, (o j).isSome = true) →
    (⌈(D - t) * 6⌉).toNat = n →
    (processVideoAux D o t k).map (fun a => a.timestamp) = sampleTimesFrom D t := by
  intro n
  induction n with
  | zero =>
    intro D t k o ho hn
    have hDt : ¬ t < D := by
      intro h
      have h1 : (0:ℚ) < (D - t) * 6 := mul_pos (sub_pos.mpr h) (by norm_num)
      have h2 : 0 < ⌈(D - t) * 6⌉ := Int.ceil_pos.mpr h1
      omega
    rw [processVideoAux, dif_neg hDt, sampleTimesFrom, dif_neg hDt]
    rfl
  | succ m ih =>
    intro D t k o ho hn
    have hDt : t < D := by
      by_contra hcon
      have h1 : (D - t) * 6 ≤ 0 := by nlinarith [not_lt.mp hcon]
      have h2 : ⌈(D - t) * 6⌉ ≤ 0 := by
        rw [Int.ceil_le]
        exact_mod_cast h1
      omega
    have hn' : (⌈(D - (t + frameInterval * 5)) * 6⌉).toNat = m := by
      have e : (D - (t + frameInterval * 5)) * 6 = (D - t) * 6 - 1 := by
        simp only [frameInterval]; ring
      rw [e, Int.ceil_sub_one]
      omega
    rw [processVideoAux, dif_pos hDt, sampleTimesFrom, dif_pos hDt]
    cases hok : o k with
    | none =>
      exfalso
      have := ho k
      rw [hok] at this
      simp at this
    | some dets =>
      simp only [hok, List.cons_append, List.nil_append, List.map_cons]
      rw [ih D (t + frameInterval * 5) (k + 1) o ho hn']
      simp [processFrame]

/-- Claim C9: `processVideo` samples at the times
`t_0 = 0, t_{i+1} = t_i + frameInterval·5` (step 5/30 s with `fps = 30`,
stride 5), i.e. `t_i = i·(5/30)`, taking exactly the indices with
`t_i < D`; for a duration `D ≤ 0` no frame is sampled and the returned
analysis sequence is empty. When every frame's detection succeeds, the
timestamps of the returned analyses are exactly the sample times. -/
theorem processVideo_sampling (D : ℚ) :
    sampleTimesFrom D 0 =
      (List.range (⌈D * 6⌉).toNat).map (fun i : ℕ => (i : ℚ) * (5 / 30))
    ∧ (∀ i : ℕ, i < (⌈D * 6⌉).toNat ↔ (i : ℚ) * (5 / 30) < D)
    ∧ (∀ o : ℕ → Option (List RawDetection), D ≤ 0 → processVideo D o = [])
    ∧ (∀ o : ℕ → Option (List RawDetection), (∀ k, (o k).isSome = true) →
        (processVideo D o).map (fun a => a.timestamp) = sampleTimesFrom D 0) := by
  refine ⟨?_, ?_, ?_, ?_⟩
  · have h0 : (⌈(D - 0) * 6⌉).toNat = (⌈D * 6⌉).toNat := by norm_num
    rw [sampleTimesFrom_closed (⌈D * 6⌉).toNat D 0 h0]
    apply List.map_congr_left
    intro i _
    norm_num [frameInterval]
  · intro i
    have hiff : i < (⌈D * 6⌉).toNat ↔ (i : ℤ) < ⌈D * 6⌉ := by omega
    rw [hiff, Int.lt_ceil]
    push_cast
    constructor <;> intro h <;> nlinarith
  · intro o hD
    unfold processVideo
    rw [processVideoAux, dif_neg (by linarith : ¬ (0:ℚ) < D)]
  · intro o ho
    exact processVideoAux_timestamps (⌈(D - 0) * 6⌉).toNat D 0 0 o ho rfl

/-- Witness for the sampling characterization: a non-positive duration
yields no analyses, and with an always-successful detector the timestamps
are the sample times. -/
theorem processVideo_sampling_witness :
    processVideo (-1) (fun _ => none) = []
    ∧ (processVideo (2 : ℚ) (fun _ => some [])).map (fun a => a.timestamp) =
      sampleTimesFrom 2 0 := by
  constructor
  · exact (processVideo_sampling (-1)).2.2.1 (fun _ => none) (by norm_num)
  · exact (processVideo_sampling 2).2.2.2 (fun _ => some []) (fun k => rfl)

/-- Claim C1 counterexample: a 1/6-second video has exactly one sampled
frame; when detection fails on it, the returned sequence is empty — the
failed frame is NOT recorded with empty detections, contrary to the claim,
which predicts a one-element sequence with no players, no ball, no court. -/
theorem processVideo_failed_frame_counterexample :
    processVideo (1/6) (fun _ => none) = []
    ∧ processVideo (1/6) (fun _ => none) ≠
      [{ frame := 0, timestamp := 0, players := [], ball := none, court := none }] := by
  have h : processVideo (1/6) (fun _ => none) = [] := by
    unfold processVideo
    rw [processVideoAux, dif_pos (by norm_num : (0:ℚ) < 1/6)]
    rw [processVideoAux,
      dif_neg (by norm_num [frameInterval] : ¬ ((0 : ℚ) + frameInterval * 5) < 1/6)]
    simp
  exact ⟨h, by rw [h]; simp⟩

/-- Claim C1 (amended): when detection fails on a sampled frame inside the
`while` loop, the failure is caught and the loop continues with the next
sample time and frame number; the failing frame is skipped — it contributes
nothing to the result sequence — and the run is never aborted. -/
theorem processVideo_failure_skips_frame (D t : ℚ) (n : ℕ)
    (o : ℕ → Option (List RawDetection)) (hDt : t < D) (ho : o n = none) :
    processVideoAux D o t n = processVideoAux D o (t + frameInterval * 5) (n + 1) := by
  rw [processVideoAux, dif_pos hDt, ho]
  rfl

/-- Witness for the skip-on-failure rule at a concrete input. -/
theorem processVideo_failure_skips_frame_witness :
    processVideoAux 1 (fun _ => none) 0 0 =
      processVideoAux 1 (fun _ => none) (0 + frameInterval * 5) (0 + 1) :=
  processVideo_failure_skips_frame 1 0 0 (fun _ => none) (by norm_num) rfl

end TennisInsight
